import Mathlib

/-!
Shallow embedding of the `linoak/pwa` on-screen piano repository
(`script.js` and its offline-cache service worker), together with proofs
of the specification claims about it.

Conventions of the embedding:
* Web Audio timeline times are rationals (`ℚ`); audio amplitude and
  frequency values are reals (`ℝ`).
* A Web Audio `AudioParam` is modelled as its current base `value` plus
  the list of scheduled automation events.
* JavaScript objects used as string-keyed dictionaries (the engine's
  `this.oscillators`) are modelled as association lists with unique keys
  in insertion order.
* Voices that have been torn down (removed from `oscillators`) still
  live in the audio graph until their scheduled stop; the engine model
  keeps them in a `released` list so that teardown is observable.
-/

namespace PWA

/-- A scheduled automation event on a Web Audio `AudioParam` timeline. -/
inductive AutomationEvent where
  | setValueAtTime (value : ℝ) (time : ℚ)
  | linearRampToValueAtTime (value : ℝ) (time : ℚ)
  | exponentialRampToValueAtTime (value : ℝ) (time : ℚ)

/-- The scheduled time of an automation event. -/
def AutomationEvent.time : AutomationEvent → ℚ
  | .setValueAtTime _ t => t
  | .linearRampToValueAtTime _ t => t
  | .exponentialRampToValueAtTime _ t => t

/-- Whether an automation event is an exponential ramp (a fade). -/
def AutomationEvent.isExpRamp : AutomationEvent → Bool
  | .exponentialRampToValueAtTime _ _ => true
  | _ => false

/-- A Web Audio `AudioParam`: its current base value and its list of
scheduled automation events.  (The time evolution of `value` under
automation is not modelled; `value` holds the last directly assigned
value, which is all the source ever reads.) -/
structure AudioParam where
  value : ℝ
  events : List AutomationEvent

/-- `param.setValueAtTime(v, t)`. -/
def AudioParam.setValueAtTime (p : AudioParam) (v : ℝ) (t : ℚ) : AudioParam :=
  { p with events := p.events ++ [.setValueAtTime v t] }

/-- `param.linearRampToValueAtTime(v, t)`. -/
def AudioParam.linearRampToValueAtTime (p : AudioParam) (v : ℝ) (t : ℚ) : AudioParam :=
  { p with events := p.events ++ [.linearRampToValueAtTime v t] }

/-- `param.exponentialRampToValueAtTime(v, t)`. -/
def AudioParam.exponentialRampToValueAtTime (p : AudioParam) (v : ℝ) (t : ℚ) : AudioParam :=
  { p with events := p.events ++ [.exponentialRampToValueAtTime v t] }

/-- `param.cancelScheduledValues(t)`: discard every automation event
scheduled at or after time `t`. -/
def AudioParam.cancelScheduledValues (p : AudioParam) (t : ℚ) : AudioParam :=
  { p with events := p.events.filter (fun e => decide (e.time < t)) }

/-- An `OscillatorNode` as used by `AudioEngine.playTone`. -/
structure OscillatorNode where
  waveType : String
  frequency : AudioParam
  started : Bool
  stopTime : Option ℚ

/-- The `{ osc, gain }` pair stored per live note in
`AudioEngine.oscillators`; `gain` is the gain node's `gain` param. -/
structure VoicePair where
  osc : OscillatorNode
  gain : AudioParam

/-- Look up the voice stored under key `k` in the engine's dictionary. -/
def lookupVoice : List (String × VoicePair) → String → Option VoicePair
  | [], _ => none
  | (k', v') :: rest, k => if k' = k then some v' else lookupVoice rest k

/-- `this.oscillators[k] = v`: replace the entry if the key is present,
otherwise append it. -/
def insertVoice : List (String × VoicePair) → String → VoicePair → List (String × VoicePair)
  | [], k, v => [(k, v)]
  | (k', v') :: rest, k, v =>
      if k' = k then (k, v) :: rest else (k', v') :: insertVoice rest k v

/-- `delete this.oscillators[k]`: remove the entry with key `k`. -/
def eraseVoice : List (String × VoicePair) → String → List (String × VoicePair)
  | [], _ => []
  | (k', v') :: rest, k =>
      if k' = k then rest else (k', v') :: eraseVoice rest k

/-- The state of `AudioEngine` from `script.js`, together with the part
of the audio graph it owns. -/
structure AudioEngine where
  currentTime : ℚ
  ctxState : String
  masterGain : AudioParam
  oscillators : List (String × VoicePair)
  released : List VoicePair

/-- The `AudioEngine` constructor: a fresh context (whose initial state
the browser chooses), a master gain node connected to the destination
with `gain.value = 0.5`, and an empty `oscillators` dictionary. -/
def AudioEngine.init (ctxState : String) : AudioEngine :=
  { currentTime := 0
    ctxState := ctxState
    masterGain := { value := 0.5, events := [] }
    oscillators := []
    released := [] }

/-- `AudioEngine.setVolume(value)`. -/
def AudioEngine.setVolume (s : AudioEngine) (value : ℝ) : AudioEngine :=
  { s with masterGain := s.masterGain.setValueAtTime value s.currentTime }

/-- `AudioEngine.resume()`. -/
def AudioEngine.resume (s : AudioEngine) : AudioEngine :=
  if s.ctxState = "suspended" then { s with ctxState := "running" } else s

/-- `AudioEngine.stopTone(note)`: if a voice is live for `note`, cancel
its scheduled envelope changes, hold its current gain value, ramp
exponentially to 0.001 over 0.1 s, schedule the oscillator stop at
`currentTime + 0.1`, and delete the dictionary entry (the fading voice
stays in the audio graph, modelled by `released`). -/
def AudioEngine.stopTone (s : AudioEngine) (note : String) : AudioEngine :=
  match lookupVoice s.oscillators note with
  | none => s
  | some v =>
      let t := s.currentTime
      let gain :=
        ((v.gain.cancelScheduledValues t).setValueAtTime v.gain.value t).exponentialRampToValueAtTime 0.001 (t + 1/10)
      let osc := { v.osc with stopTime := some (t + 1/10) }
      { s with
        oscillators := eraseVoice s.oscillators note
        released := s.released ++ [{ osc := osc, gain := gain }] }

/-- `AudioEngine.playTone(note, frequency)`: tear down any live voice
for `note` via `stopTone`, then create an oscillator/gain pair with a
triangle wave at `frequency` and the attack/decay envelope, start it,
and register it under `note`. -/
def AudioEngine.playTone (s : AudioEngine) (note : String) (frequency : ℝ) : AudioEngine :=
  let s1 := if (lookupVoice s.oscillators note).isSome then s.stopTone note else s
  let t := s1.currentTime
  let osc : OscillatorNode :=
    { waveType := "triangle"
      frequency := ({ value := 440, events := [] } : AudioParam).setValueAtTime frequency t
      started := true
      stopTime := none }
  let gain : AudioParam :=
    ((({ value := 1, events := [] } : AudioParam).setValueAtTime 0 t).linearRampToValueAtTime 1 (t + 2/100)).exponentialRampToValueAtTime 0.5 (t + 1/2)
  { s1 with oscillators := insertVoice s1.oscillators note { osc := osc, gain := gain } }

/-- Number of entries an association list holds for key `k`. -/
def keyCount (l : List (String × VoicePair)) (k : String) : Nat :=
  l.countP (fun p => decide (p.1 = k))

/-- Number of entries the active-voice dictionary holds for key `note`. -/
def countVoices (s : AudioEngine) (note : String) : Nat :=
  keyCount s.oscillators note

/-- The `NOTES` table. -/
def NOTES : List String :=
  ["C", "C#", "D", "D#", "E", "F",
   ("F#" : String), "G", "G#", "A", "A#", "B"]

/-- The `KEY_MAP` table from physical keys to note bases. -/
def KEY_MAP : List (String × String) :=
  [("a", "C"), ("w", "C#"), ("s", "D"), ("e", "D#"), ("d", "E"), ("f", "F"),
   ("t", "F#"), ("g", "G"), ("y", "G#"), ("h", "A"), ("u", "A#"), ("j", "B"), ("k", "C2")]

/-- JavaScript `Array.prototype.indexOf`: first index of `x`, `-1` when absent. -/
def jsIndexOf (l : List String) (x : String) : Int :=
  if x ∈ l then (l.indexOf x : Int) else -1

/-- `PianoUI.getFrequency(note, octave)`:
`440 * 2 ^ (((octave - 4) * 12 + (NOTES.indexOf(note) - 9)) / 12)`. -/
noncomputable def getFrequency (note : String) (octave : Int) : ℝ :=
  440 * (2 : ℝ) ^ (((((octave - 4) * 12 + (jsIndexOf NOTES note - 9)) : Int) : ℝ) / 12)

/-- Pitch-class index per the spec: `C = 0`, …, `B = 11` (`A = 9`). -/
def pitchClassIndex : String → Int
  | "C" => 0
  | "C#" => 1
  | "D" => 2
  | "D#" => 3
  | "E" => 4
  | "F" => 5
  | "F#" => 6
  | "G" => 7
  | "G#" => 8
  | "A" => 9
  | "A#" => 10
  | "B" => 11
  | _ => 0

/-- The spec's `frequencyOf`, stated from the spec's own words for
comparison with the source's `getFrequency`: semitone distance
`(octave - 4) * 12 + (pitchClassIndex note - pitchClassIndex A)`,
frequency `440 * 2 ^ (semitoneDistance / 12)`. -/
noncomputable def specFrequencyOf (note : String) (octave : Int) : ℝ :=
  440 * (2 : ℝ) ^
    (((((octave - 4) * 12 + (pitchClassIndex note - pitchClassIndex "A")) : Int) : ℝ) / 12)

/-- The template literal `` `${note}${octave}` `` used as the engine's
active-voice dictionary key. -/
def keyString (note : String) (octave : Int) : String :=
  note ++ toString octave

/-- JavaScript `String.prototype.toLowerCase` on ASCII input:
character-wise lowering. -/
def toLowerCase (s : String) : String :=
  ⟨s.data.map Char.toLower⟩

/-- Character-wise uppercasing; the "uppercase variant" of a physical
key (the value the event carries with Shift or Caps Lock held). -/
def toUpperVariant (s : String) : String :=
  ⟨s.data.map Char.toUpper⟩

/-- `KEY_MAP[k]` lookup. -/
def lookupKeyMap (k : String) : Option String :=
  (KEY_MAP.find? (fun p => p.1 == k)).map (fun p => p.2)

/-- The keyboard handlers' resolution of a raw key value to a target
`(note, octave)` identity: look the lowercased key up in `KEY_MAP`, and
map the `"C2"` base to the C of the next octave up. -/
def resolveKeyboard (rawKey : String) (octave : Int) : Option (String × Int) :=
  match lookupKeyMap (toLowerCase rawKey) with
  | none => none
  | some noteBase =>
      if noteBase = "C2" then some ("C", octave + 1) else some (noteBase, octave)

/-- A rendered key element: its `data-note`/`data-octave` attributes,
its `active` CSS class, and its `touchId` dataset tag. -/
structure KeyEl where
  note : String
  octave : Int
  active : Bool
  touchId : Option Nat

/-- The key elements produced by `PianoUI.renderPiano` for a given base
octave: 13 keys, `NOTES[i % 12]` at octave `startOctave + ⌊i / 12⌋`,
none active. -/
def renderKeys (octave : Int) : List KeyEl :=
  (List.range 13).map (fun i =>
    { note := NOTES.getD (i % 12) ""
      octave := octave + (i / 12 : Nat)
      active := false
      touchId := none })

/-- The state of `PianoUI`: its engine, current octave, the rendered key
elements, the octave readout text, and the drag flag. -/
structure PianoUI where
  engine : AudioEngine
  octave : Int
  baseOctave : Int
  octaveDisplay : String
  renderedKeys : List KeyEl
  isDragging : Bool

/-- `PianoUI.renderPiano()`: discard the old key elements and render
fresh ones for the current octave. -/
def PianoUI.renderPiano (s : PianoUI) : PianoUI :=
  { s with renderedKeys := renderKeys s.octave }

/-- `PianoUI.updateOctaveDisplay()`. -/
def PianoUI.updateOctaveDisplay (s : PianoUI) : PianoUI :=
  { s with octaveDisplay := "Octave: " ++ toString s.octave }

/-- The `octave-up` click handler: guarded by `octave < 7`. -/
def PianoUI.octaveUp (s : PianoUI) : PianoUI :=
  if s.octave < 7 then
    (({ s with octave := s.octave + 1 }).updateOctaveDisplay).renderPiano
  else s

/-- The `octave-down` click handler: guarded by `octave > 1`. -/
def PianoUI.octaveDown (s : PianoUI) : PianoUI :=
  if s.octave > 1 then
    (({ s with octave := s.octave - 1 }).updateOctaveDisplay).renderPiano
  else s

/-- The `volume-slider` input handler. -/
def PianoUI.setVolume (s : PianoUI) (v : ℝ) : PianoUI :=
  { s with engine := s.engine.setVolume v }

/-- `PianoUI.playKey(keyElement)` on the element at index `i` (a `none`
element is the `if (!keyElement) return` guard): resume the context,
add the `active` class, and play the tone for the element's identity. -/
noncomputable def PianoUI.playKeyAt (s : PianoUI) (i : Nat) : PianoUI :=
  match s.renderedKeys[i]? with
  | none => s
  | some k =>
      let s1 := { s with engine := s.engine.resume
                         renderedKeys := s.renderedKeys.set i { k with active := true } }
      { s1 with engine := s1.engine.playTone (keyString k.note k.octave) (getFrequency k.note k.octave) }

/-- `PianoUI.stopKey(keyElement)` on the element at index `i`: remove
the `active` class and stop the tone for the element's identity. -/
def PianoUI.stopKeyAt (s : PianoUI) (i : Nat) : PianoUI :=
  match s.renderedKeys[i]? with
  | none => s
  | some k =>
      let s1 := { s with renderedKeys := s.renderedKeys.set i { k with active := false } }
      { s1 with engine := s1.engine.stopTone (keyString k.note k.octave) }

/-- A physical-keyboard event: its `key` value and its `repeat` flag. -/
structure KeyEvent where
  key : String
  repeatFlag : Bool

/-- The `keydown` handler: return immediately on an OS auto-repeat
event, otherwise resolve the key through `KEY_MAP` and the current
octave, find the first matching rendered key, and play it. -/
noncomputable def PianoUI.keydown (s : PianoUI) (ev : KeyEvent) : PianoUI :=
  if ev.repeatFlag then s
  else
    match resolveKeyboard ev.key s.octave with
    | none => s
    | some (n, o) =>
        match s.renderedKeys.findIdx? (fun k => k.note == n && k.octave == o) with
        | none => s
        | some i => s.playKeyAt i

/-- The `keyup` handler: resolve the key the same way and stop the first
matching rendered key. -/
def PianoUI.keyup (s : PianoUI) (rawKey : String) : PianoUI :=
  match resolveKeyboard rawKey s.octave with
  | none => s
  | some (n, o) =>
      match s.renderedKeys.findIdx? (fun k => k.note == n && k.octave == o) with
      | none => s
      | some i => s.stopKeyAt i

/-- The `mousedown` handler: `target` is the index of the key element
under the pointer, `none` when the target is not a key. -/
noncomputable def PianoUI.mousedown (s : PianoUI) (target : Option Nat) : PianoUI :=
  match target with
  | none => s
  | some i => { s.playKeyAt i with isDragging := true }

/-- Indices of the rendered keys currently carrying the `active` class
(the `querySelectorAll` snapshot). -/
def activeIndices (l : List KeyEl) : List Nat :=
  (l.enum.filter (fun p => p.2.active)).map (fun p => p.1)

/-- The global `mouseup` handler: clear the drag flag and stop every key
in a snapshot of the currently active keys. -/
def PianoUI.mouseup (s : PianoUI) : PianoUI :=
  let s1 := { s with isDragging := false }
  (activeIndices s1.renderedKeys).foldl (fun st i => st.stopKeyAt i) s1

/-- The `mouseover` handler while dragging. -/
noncomputable def PianoUI.mouseover (s : PianoUI) (i : Nat) : PianoUI :=
  if s.isDragging then s.playKeyAt i else s

/-- The `mouseout` handler while dragging. -/
def PianoUI.mouseout (s : PianoUI) (i : Nat) : PianoUI :=
  if s.isDragging then s.stopKeyAt i else s

/-- The `touchstart` handler for one changed touch point landing on the
key element at index `i`: play it and tag it with the touch id. -/
noncomputable def PianoUI.touchstart (s : PianoUI) (i : Nat) (tid : Nat) : PianoUI :=
  let s1 := s.playKeyAt i
  match s1.renderedKeys[i]? with
  | none => s1
  | some k => { s1 with renderedKeys := s1.renderedKeys.set i { k with touchId := some tid } }

/-- One step of the `touchend` handler's loop body: stop the key at
index `i` and delete its touch tag. -/
def touchendStep (st : PianoUI) (i : Nat) : PianoUI :=
  let st1 := st.stopKeyAt i
  match st1.renderedKeys[i]? with
  | none => st1
  | some k => { st1 with renderedKeys := st1.renderedKeys.set i { k with touchId := none } }

/-- The `touchend` handler for one changed touch point: stop every
active key tagged with this touch id and clear the tags. -/
def PianoUI.touchend (s : PianoUI) (tid : Nat) : PianoUI :=
  ((s.renderedKeys.enum.filter
      (fun p => p.2.active && p.2.touchId == some tid)).map (fun p => p.1)).foldl
    touchendStep s

/-- The `PianoUI` constructor: a fresh engine, octave 4, and the initial
`renderPiano()`.  The context's initial state and the page's initial
octave-readout text come from the environment. -/
def PianoUI.init (ctxState display0 : String) : PianoUI :=
  PianoUI.renderPiano
    { engine := AudioEngine.init ctxState
      octave := 4
      baseOctave := 4
      octaveDisplay := display0
      renderedKeys := []
      isDragging := false }

/-- Every UI event the page's handlers react to. -/
inductive Action where
  | octaveUp
  | octaveDown
  | volume (v : ℝ)
  | keydownE (ev : KeyEvent)
  | keyupE (k : String)
  | mousedownE (target : Option Nat)
  | mouseupE
  | mouseoverE (i : Nat)
  | mouseoutE (i : Nat)
  | touchstartE (i tid : Nat)
  | touchendE (tid : Nat)

/-- Dispatch an action to its handler. -/
noncomputable def Action.apply : Action → PianoUI → PianoUI
  | .octaveUp, s => s.octaveUp
  | .octaveDown, s => s.octaveDown
  | .volume v, s => s.setVolume v
  | .keydownE ev, s => s.keydown ev
  | .keyupE k, s => s.keyup k
  | .mousedownE t, s => s.mousedown t
  | .mouseupE, s => s.mouseup
  | .mouseoverE i, s => s.mouseover i
  | .mouseoutE i, s => s.mouseout i
  | .touchstartE i tid, s => s.touchstart i tid
  | .touchendE tid, s => s.touchend tid

/-- The states the page can reach: the constructor's state followed by
any sequence of handled events. -/
inductive Reachable : PianoUI → Prop where
  | init (ctxState display0 : String) : Reachable (PianoUI.init ctxState display0)
  | step {s : PianoUI} (a : Action) : Reachable s → Reachable (a.apply s)

/-- The service worker's `fetch` handler: consult the cache first and
fall back to the network only on a miss.  The boolean records whether
the network was contacted. -/
def handleFetch (cacheMatch : String → Option String) (networkFetch : String → String)
    (request : String) : String × Bool :=
  match cacheMatch request with
  | some response => (response, false)
  | none => (networkFetch request, true)

/-- The service worker's `urlsToCache` list. -/
def urlsToCache : List String :=
  ["/", "index.html", "icon-72.png", "icon-192.png"]

/-- Base-10 value of a most-significant-first digit-character list
(the reading direction of `Nat.repr`'s output). -/
def digitsVal (l : List Char) : Nat :=
  l.foldl (fun a c => 10 * a + (c.toNat - Char.toNat '0')) 0

/-- Split an engine dictionary key back into its note part and its
octave part: the note is two characters when the second character is
`'#'`, otherwise one. -/
def decodeKeyChars : List Char → String × String
  | [] => ("", "")
  | [c1] => (String.mk [c1], "")
  | c1 :: c2 :: rest =>
      if c2 = '#' then (String.mk [c1, '#'], String.mk rest)
      else (String.mk [c1], String.mk (c2 :: rest))

/-- `decodeKeyChars` on a string. -/
def decodeKey (s : String) : String × String :=
  decodeKeyChars s.data

/-- The torn-down form of a live voice, as `stopTone` leaves it in the
audio graph at time `t`: envelope automation cancelled, gain held at its
current value and ramped exponentially to 0.001 over 0.1 s, oscillator
stop scheduled at `t + 0.1`. -/
def teardownVoice (t : ℚ) (v : VoicePair) : VoicePair :=
  { osc := { v.osc with stopTime := some (t + 1/10) }
    gain := ((v.gain.cancelScheduledValues t).setValueAtTime v.gain.value t).exponentialRampToValueAtTime 0.001 (t + 1/10) }

/-- A concrete live voice, as `playTone` would have built it. -/
def sampleVoice : VoicePair :=
  { osc := { waveType := "triangle"
             frequency := { value := 440, events := [] }
             started := true
             stopTime := none }
    gain := { value := 1, events := [] } }

/-- A concrete engine state with one live voice registered under `"A4"`. -/
def sampleEngine : AudioEngine :=
  { currentTime := 0
    ctxState := "running"
    masterGain := { value := 0.5, events := [] }
    oscillators := [("A4", sampleVoice)]
    released := [] }

/-- A concrete cache holding exactly the installed asset list. -/
def sampleCache (req : String) : Option String :=
  if req ∈ urlsToCache then some ("cached:" ++ req) else none

/-- A concrete network. -/
def sampleNetwork (req : String) : String :=
  "network:" ++ req

/-! ### Facts about the active-voice dictionary -/

theorem keyCount_eq_zero_of_not_mem {l : List (String × VoicePair)} {k : String}
    (h : k ∉ l.map Prod.fst) : keyCount l k = 0 := by
  induction l with
  | nil => rfl
  | cons p rest ih =>
    simp only [List.map_cons, List.mem_cons, not_or] at h
    simp only [keyCount, List.countP_cons, decide_eq_true_eq]
    rw [if_neg (fun hp => h.1 hp.symm)]
    simpa [keyCount] using ih h.2

theorem keyCount_eq_zero_of_lookup_none {l : List (String × VoicePair)} {k : String}
    (h : lookupVoice l k = none) : keyCount l k = 0 := by
  induction l with
  | nil => rfl
  | cons p rest ih =>
    obtain ⟨k', v'⟩ := p
    rw [lookupVoice] at h
    by_cases hk : k' = k
    · simp [hk] at h
    · rw [if_neg hk] at h
      simp [keyCount, List.countP_cons, hk] at ih ⊢
      exact ih h

theorem keyCount_eraseVoice_self {l : List (String × VoicePair)} {k : String}
    (h : (l.map Prod.fst).Nodup) : keyCount (eraseVoice l k) k = 0 := by
  induction l with
  | nil => rfl
  | cons p rest ih =>
    obtain ⟨k', v'⟩ := p
    simp only [List.map_cons, List.nodup_cons] at h
    rw [eraseVoice]
    by_cases hk : k' = k
    · rw [if_pos hk]
      exact keyCount_eq_zero_of_not_mem (hk ▸ h.1)
    · rw [if_neg hk]
      simp only [keyCount, List.countP_cons, decide_eq_true_eq]
      rw [if_neg hk]
      simpa [keyCount] using ih h.2

theorem keyCount_insertVoice_self {l : List (String × VoicePair)} {k : String}
    {v : VoicePair} (h : keyCount l k = 0) : keyCount (insertVoice l k v) k = 1 := by
  induction l with
  | nil => simp [insertVoice, keyCount]
  | cons p rest ih =>
    obtain ⟨k', v'⟩ := p
    simp only [keyCount, List.countP_cons, decide_eq_true_eq] at h
    rw [insertVoice]
    by_cases hk : k' = k
    · exfalso
      rw [if_pos hk] at h
      omega
    · rw [if_neg hk] at h
      rw [if_neg hk]
      have h0 : keyCount rest k = 0 := by simpa [keyCount] using h
      simp only [keyCount, List.countP_cons, decide_eq_true_eq]
      rw [if_neg hk]
      simpa [keyCount] using ih h0

theorem mem_keys_insertVoice {l : List (String × VoicePair)} {k x : String}
    {v : VoicePair} :
    x ∈ (insertVoice l k v).map Prod.fst ↔ x ∈ l.map Prod.fst ∨ x = k := by
  induction l with
  | nil => simp [insertVoice]
  | cons p rest ih =>
    obtain ⟨k', v'⟩ := p
    rw [insertVoice]
    by_cases hk : k' = k
    · subst hk
      simp [List.mem_cons]
      tauto
    · rw [if_neg hk]
      simp only [List.map_cons, List.mem_cons, ih]
      tauto

theorem nodup_keys_insertVoice {l : List (String × VoicePair)} {k : String}
    {v : VoicePair} (h : (l.map Prod.fst).Nodup) :
    ((insertVoice l k v).map Prod.fst).Nodup := by
  induction l with
  | nil => simp [insertVoice]
  | cons p rest ih =>
    obtain ⟨k', v'⟩ := p
    simp only [List.map_cons, List.nodup_cons] at h
    rw [insertVoice]
    by_cases hk : k' = k
    · subst hk
      rw [if_pos rfl]
      simp only [List.map_cons, List.nodup_cons]
      exact h
    · rw [if_neg hk]
      simp only [List.map_cons, List.nodup_cons, mem_keys_insertVoice]
      refine ⟨?_, ih h.2⟩
      rintro (hm | rfl)
      · exact h.1 hm
      · exact hk rfl

theorem eraseVoice_sublist (l : List (String × VoicePair)) (k : String) :
    (eraseVoice l k).Sublist l := by
  induction l with
  | nil => simp [eraseVoice]
  | cons p rest ih =>
    obtain ⟨k', v'⟩ := p
    rw [eraseVoice]
    by_cases hk : k' = k
    · rw [if_pos hk]
      exact List.sublist_cons_self _ _
    · rw [if_neg hk]
      exact ih.cons₂ _

theorem nodup_keys_eraseVoice {l : List (String × VoicePair)} {k : String}
    (h : (l.map Prod.fst).Nodup) : ((eraseVoice l k).map Prod.fst).Nodup :=
  ((eraseVoice_sublist l k).map Prod.fst).nodup h

theorem lookupVoice_insertVoice_ne {l : List (String × VoicePair)} {k k2 : String}
    {v : VoicePair} (h : k ≠ k2) :
    lookupVoice (insertVoice l k v) k2 = lookupVoice l k2 := by
  induction l with
  | nil => simp [insertVoice, lookupVoice, h]
  | cons p rest ih =>
    obtain ⟨k', v'⟩ := p
    rw [insertVoice]
    by_cases hk : k' = k
    · subst hk
      rw [if_pos rfl, lookupVoice, lookupVoice, if_neg h, if_neg h]
    · rw [if_neg hk, lookupVoice, lookupVoice]
      by_cases hk2 : k' = k2
      · rw [if_pos hk2, if_pos hk2]
      · rw [if_neg hk2, if_neg hk2, ih]

theorem lookupVoice_eraseVoice_ne {l : List (String × VoicePair)} {k k2 : String}
    (h : k ≠ k2) : lookupVoice (eraseVoice l k) k2 = lookupVoice l k2 := by
  induction l with
  | nil => simp [eraseVoice]
  | cons p rest ih =>
    obtain ⟨k', v'⟩ := p
    rw [eraseVoice]
    by_cases hk : k' = k
    · subst hk
      rw [if_pos rfl, lookupVoice, if_neg h]
    · rw [if_neg hk, lookupVoice, lookupVoice]
      by_cases hk2 : k' = k2
      · rw [if_pos hk2, if_pos hk2]
      · rw [if_neg hk2, if_neg hk2, ih]

/-- A single `playTone` leaves exactly one dictionary entry for its
note and preserves key uniqueness. -/
theorem playTone_count_nodup (s : AudioEngine) (note : String) (f : ℝ)
    (hwf : (s.oscillators.map Prod.fst).Nodup) :
    countVoices (s.playTone note f) note = 1 ∧
    ((s.playTone note f).oscillators.map Prod.fst).Nodup := by
  unfold AudioEngine.playTone
  cases h : lookupVoice s.oscillators note with
  | none =>
    simp only [h, Option.isSome_none, Bool.false_eq_true, if_false]
    exact ⟨keyCount_insertVoice_self (keyCount_eq_zero_of_lookup_none h),
      nodup_keys_insertVoice hwf⟩
  | some v =>
    simp only [h, Option.isSome_some, if_true, AudioEngine.stopTone]
    constructor
    · exact keyCount_insertVoice_self (keyCount_eraseVoice_self hwf)
    · exact nodup_keys_insertVoice (nodup_keys_eraseVoice hwf)

/-- `stopTone` on a live voice erases its entry and hands the torn-down
voice to the audio graph. -/
theorem stopTone_of_live (s : AudioEngine) (note : String) (v : VoicePair)
    (h : lookupVoice s.oscillators note = some v) :
    s.stopTone note =
      { s with oscillators := eraseVoice s.oscillators note
               released := s.released ++ [teardownVoice s.currentTime v] } := by
  unfold AudioEngine.stopTone teardownVoice
  rw [h]

/-- `playTone` tears down exactly the previously live voice for its
note, if any. -/
theorem playTone_released (s : AudioEngine) (note : String) (f : ℝ) :
    (s.playTone note f).released =
      s.released ++ ((lookupVoice s.oscillators note).map (teardownVoice s.currentTime)).toList := by
  unfold AudioEngine.playTone
  cases h : lookupVoice s.oscillators note with
  | none => simp [h]
  | some v =>
    simp only [h, Option.isSome_some, if_true]
    rw [stopTone_of_live s note v h]
    rfl

/-- C1: the active-voice map holds at most one live voice per identity:
a `trigger` (`playTone`) of an identity whose voice is live first tears
the old voice down (it moves into the audio graph's released set), and
after one or two successive triggers of the same identity the map holds
exactly one entry for it. -/
theorem trigger_single_live_voice (s : AudioEngine) (note : String) (f1 f2 : ℝ)
    (hwf : (s.oscillators.map Prod.fst).Nodup) :
    countVoices (s.playTone note f1) note = 1 ∧
    countVoices ((s.playTone note f1).playTone note f2) note = 1 ∧
    (s.playTone note f1).released =
      s.released ++ ((lookupVoice s.oscillators note).map (teardownVoice s.currentTime)).toList := by
  obtain ⟨h1, hn1⟩ := playTone_count_nodup s note f1 hwf
  obtain ⟨h2, -⟩ := playTone_count_nodup (s.playTone note f1) note f2 hn1
  exact ⟨h1, h2, playTone_released s note f1⟩

/-- Witness for C1 at a concrete engine state with a live `"A4"` voice. -/
theorem trigger_single_live_voice_witness :
    (sampleEngine.oscillators.map Prod.fst).Nodup ∧
    (countVoices (sampleEngine.playTone "A4" 440) "A4" = 1 ∧
     countVoices ((sampleEngine.playTone "A4" 440).playTone "A4" 441) "A4" = 1 ∧
     (sampleEngine.playTone "A4" 440).released =
       sampleEngine.released ++
         ((lookupVoice sampleEngine.oscillators "A4").map
           (teardownVoice sampleEngine.currentTime)).toList) :=
  ⟨by decide, trigger_single_live_voice sampleEngine "A4" 440 441 (by decide)⟩

/-- C3 (amended): on a re-trigger the old voice is torn down
synchronously before the new voice is registered — its scheduled
envelope changes are cancelled and its map entry removed — but the
teardown is the release path, not an immediate stop: the gain is held
and ramped exponentially to 0.001 over 0.1 s and the source's stop is
scheduled at `currentTime + 0.1`, a later time than `currentTime`. -/
theorem retrigger_teardown (s : AudioEngine) (note : String) (f : ℝ) (v : VoicePair)
    (h : lookupVoice s.oscillators note = some v) :
    s.stopTone note =
      { s with oscillators := eraseVoice s.oscillators note
               released := s.released ++ [teardownVoice s.currentTime v] } ∧
    (s.playTone note f).released = s.released ++ [teardownVoice s.currentTime v] ∧
    (teardownVoice s.currentTime v).osc.stopTime = some (s.currentTime + 1/10) ∧
    (teardownVoice s.currentTime v).gain.events =
      (v.gain.events.filter (fun e => decide (e.time < s.currentTime))) ++
        [.setValueAtTime v.gain.value s.currentTime,
         .exponentialRampToValueAtTime 0.001 (s.currentTime + 1/10)] := by
  refine ⟨stopTone_of_live s note v h, ?_, rfl, ?_⟩
  · rw [playTone_released s note f, h]
    rfl
  · simp [teardownVoice, AudioParam.cancelScheduledValues, AudioParam.setValueAtTime,
      AudioParam.exponentialRampToValueAtTime]

/-- Witness for the amended C3 at a concrete engine state. -/
theorem retrigger_teardown_witness :
    lookupVoice sampleEngine.oscillators "A4" = some sampleVoice ∧
    (sampleEngine.stopTone "A4" =
      { sampleEngine with
          oscillators := eraseVoice sampleEngine.oscillators "A4"
          released := sampleEngine.released ++ [teardownVoice sampleEngine.currentTime sampleVoice] } ∧
     (sampleEngine.playTone "A4" 440).released =
       sampleEngine.released ++ [teardownVoice sampleEngine.currentTime sampleVoice] ∧
     (teardownVoice sampleEngine.currentTime sampleVoice).osc.stopTime =
       some (sampleEngine.currentTime + 1/10) ∧
     (teardownVoice sampleEngine.currentTime sampleVoice).gain.events =
       (sampleVoice.gain.events.filter
           (fun e => decide (e.time < sampleEngine.currentTime))) ++
         [.setValueAtTime sampleVoice.gain.value sampleEngine.currentTime,
          .exponentialRampToValueAtTime 0.001 (sampleEngine.currentTime + 1/10)]) :=
  ⟨rfl, retrigger_teardown sampleEngine "A4" 440 sampleVoice rfl⟩

/-- C3 counterexample: at a state with a live `"A4"` voice and
`currentTime = 0`, a re-trigger gives the torn-down voice a scheduled
stop at time `1/10` — not the current time `0` — and appends an
exponential fade ramp to its gain, so the old source is not "stopped
immediately with no fade". -/
theorem retrigger_counterexample :
    sampleEngine.currentTime = 0 ∧
    ((sampleEngine.playTone "A4" 440).released.map (fun v => v.osc.stopTime)) = [some (1/10)] ∧
    ((sampleEngine.playTone "A4" 440).released.map (fun v => v.osc.stopTime)) ≠
      [some sampleEngine.currentTime] ∧
    ((sampleEngine.playTone "A4" 440).released.map
        (fun v => v.gain.events.map AutomationEvent.isExpRamp)) = [[false, true]] := by
  have hmap : (sampleEngine.playTone "A4" 440).released.map (fun v => v.osc.stopTime) =
      [some (sampleEngine.currentTime + 1/10)] := rfl
  have h0 : sampleEngine.currentTime = 0 := rfl
  refine ⟨rfl, ?_, ?_, by decide⟩
  · rw [hmap, h0]
    norm_num
  · rw [hmap, h0]
    intro hcontra
    simp only [List.cons.injEq, Option.some.injEq, and_true] at hcontra
    norm_num at hcontra

/-- C4: releasing an identity with no live voice is a no-op: the whole
engine state — active-voice map, master volume, every other voice — is
unchanged and no failure occurs. -/
theorem release_missing_noop (s : AudioEngine) (note : String)
    (h : lookupVoice s.oscillators note = none) :
    s.stopTone note = s := by
  unfold AudioEngine.stopTone
  rw [h]

/-- Witness for C4: releasing `"C5"`, which has no live voice. -/
theorem release_missing_noop_witness :
    lookupVoice sampleEngine.oscillators "C5" = none ∧
    sampleEngine.stopTone "C5" = sampleEngine :=
  ⟨rfl, release_missing_noop sampleEngine "C5" rfl⟩

/-- C8: the service worker's fetch handling is cache-first: when the
cache holds a matching entry the response is that entry and the network
is not contacted; the network is used exactly on a cache miss. -/
theorem fetch_cache_first (cacheMatch : String → Option String)
    (networkFetch : String → String) (request : String) :
    (∀ r, cacheMatch request = some r →
      handleFetch cacheMatch networkFetch request = (r, false)) ∧
    (cacheMatch request = none →
      handleFetch cacheMatch networkFetch request = (networkFetch request, true)) := by
  constructor
  · intro r hr
    unfold handleFetch
    rw [hr]
  · intro hnone
    unfold handleFetch
    rw [hnone]

/-! ### The equal-tempered frequency formula -/

/-- On the twelve pitch classes, the source's `NOTES.indexOf` agrees
with the spec's pitch-class index. -/
theorem jsIndexOf_eq_pitchClassIndex : ∀ n ∈ NOTES, jsIndexOf NOTES n = pitchClassIndex n := by
  decide

/-- C2: for every supported identity (one of the 12 pitch classes, at
octave 1–7 or the high C at octave 8) the source's `getFrequency`
equals the spec's equal-tempered formula `440 * 2 ^ (d / 12)` with
`d = (octave - 4) * 12 + (pitchClassIndex note - pitchClassIndex A)`;
in particular (A,4) gives 440 Hz and (A,5) gives 880 Hz. -/
theorem frequency_equal_tempered (note : String) (octave : Int)
    (hnote : note ∈ NOTES) (hlo : 1 ≤ octave)
    (hhi : octave ≤ 7 ∨ (note = "C" ∧ octave = 8)) :
    getFrequency note octave = specFrequencyOf note octave ∧
    getFrequency "A" 4 = 440 ∧ getFrequency "A" 5 = 880 := by
  refine ⟨?_, ?_, ?_⟩
  · unfold getFrequency specFrequencyOf
    rw [jsIndexOf_eq_pitchClassIndex note hnote,
      show pitchClassIndex "A" = 9 from rfl]
  · have h9 : jsIndexOf NOTES "A" = 9 := by decide
    unfold getFrequency
    rw [h9]
    norm_num
  · have h9 : jsIndexOf NOTES "A" = 9 := by decide
    unfold getFrequency
    rw [h9]
    norm_num

/-- Witness for C2 at the identity (A, 4). -/
theorem frequency_equal_tempered_witness :
    ("A" ∈ NOTES ∧ (1 : Int) ≤ 4 ∧ ((4 : Int) ≤ 7 ∨ ("A" = "C" ∧ (4 : Int) = 8))) ∧
    (getFrequency "A" 4 = specFrequencyOf "A" 4 ∧
     getFrequency "A" 4 = 440 ∧ getFrequency "A" 5 = 880) :=
  ⟨⟨by decide, by norm_num, Or.inl (by norm_num)⟩,
   frequency_equal_tempered "A" 4 (by decide) (by norm_num) (Or.inl (by norm_num))⟩

/-! ### Octave preservation by the input handlers -/

theorem octave_playKeyAt (s : PianoUI) (i : Nat) : (s.playKeyAt i).octave = s.octave := by
  unfold PianoUI.playKeyAt
  split <;> rfl

theorem octave_stopKeyAt (s : PianoUI) (i : Nat) : (s.stopKeyAt i).octave = s.octave := by
  unfold PianoUI.stopKeyAt
  split <;> rfl

theorem octave_touchendStep (st : PianoUI) (i : Nat) :
    (touchendStep st i).octave = st.octave := by
  simp only [touchendStep]
  split <;> simp [octave_stopKeyAt]

theorem octave_foldl_stopKeys (l : List Nat) (s : PianoUI) :
    (l.foldl (fun st i => st.stopKeyAt i) s).octave = s.octave := by
  induction l generalizing s with
  | nil => rfl
  | cons i rest ih => rw [List.foldl_cons, ih, octave_stopKeyAt]

theorem octave_foldl_touchend (l : List Nat) (s : PianoUI) :
    (l.foldl touchendStep s).octave = s.octave := by
  induction l generalizing s with
  | nil => rfl
  | cons i rest ih => rw [List.foldl_cons, ih, octave_touchendStep]

theorem octave_keydown (s : PianoUI) (ev : KeyEvent) : (s.keydown ev).octave = s.octave := by
  unfold PianoUI.keydown
  split
  · rfl
  · split
    · rfl
    · split
      · rfl
      · exact octave_playKeyAt _ _

theorem octave_keyup (s : PianoUI) (k : String) : (s.keyup k).octave = s.octave := by
  unfold PianoUI.keyup
  split
  · rfl
  · split
    · rfl
    · exact octave_stopKeyAt _ _

/-- Every handled event keeps the displayed octave within `[1, 7]`. -/
theorem apply_octave_bounds (a : Action) (s : PianoUI)
    (h : 1 ≤ s.octave ∧ s.octave ≤ 7) :
    1 ≤ (a.apply s).octave ∧ (a.apply s).octave ≤ 7 := by
  cases a with
  | octaveUp =>
    simp only [Action.apply, PianoUI.octaveUp]
    split
    · rename_i hlt
      show 1 ≤ s.octave + 1 ∧ s.octave + 1 ≤ 7
      omega
    · exact h
  | octaveDown =>
    simp only [Action.apply, PianoUI.octaveDown]
    split
    · rename_i hgt
      show 1 ≤ s.octave - 1 ∧ s.octave - 1 ≤ 7
      omega
    · exact h
  | volume v => exact h
  | keydownE ev =>
    simp only [Action.apply]
    rw [octave_keydown]
    exact h
  | keyupE k =>
    simp only [Action.apply]
    rw [octave_keyup]
    exact h
  | mousedownE t =>
    simp only [Action.apply, PianoUI.mousedown]
    cases t with
    | none => exact h
    | some i =>
      show 1 ≤ (s.playKeyAt i).octave ∧ (s.playKeyAt i).octave ≤ 7
      rw [octave_playKeyAt]
      exact h
  | mouseupE =>
    simp only [Action.apply, PianoUI.mouseup]
    rw [octave_foldl_stopKeys]
    exact h
  | mouseoverE i =>
    simp only [Action.apply, PianoUI.mouseover]
    split
    · rw [octave_playKeyAt]; exact h
    · exact h
  | mouseoutE i =>
    simp only [Action.apply, PianoUI.mouseout]
    split
    · rw [octave_stopKeyAt]; exact h
    · exact h
  | touchstartE i tid =>
    simp only [Action.apply, PianoUI.touchstart]
    split
    · rw [octave_playKeyAt]; exact h
    · show 1 ≤ (s.playKeyAt i).octave ∧ (s.playKeyAt i).octave ≤ 7
      rw [octave_playKeyAt]
      exact h
  | touchendE tid =>
    simp only [Action.apply, PianoUI.touchend]
    rw [octave_foldl_touchend]
    exact h

/-- Every reachable state has its displayed octave in `[1, 7]`. -/
theorem reachable_octave_bounds (s : PianoUI) (h : Reachable s) :
    1 ≤ s.octave ∧ s.octave ≤ 7 := by
  induction h with
  | init ctxState display0 =>
    have h4 : (PianoUI.init ctxState display0).octave = 4 := rfl
    omega
  | step a hr ih => exact apply_octave_bounds a _ ih

/-- C6: in every reachable state the displayed base octave lies in
`[1, 7]`, and at the boundaries the octave controls refuse the action
with no change at all to the state (octave value, readout, rendered
keys included). -/
theorem octave_clamped (s : PianoUI) (h : Reachable s) :
    (1 ≤ s.octave ∧ s.octave ≤ 7) ∧
    (s.octave = 7 → s.octaveUp = s) ∧
    (s.octave = 1 → s.octaveDown = s) := by
  refine ⟨reachable_octave_bounds s h, ?_, ?_⟩
  · intro h7
    unfold PianoUI.octaveUp
    rw [if_neg (by omega)]
  · intro h1
    unfold PianoUI.octaveDown
    rw [if_neg (by omega)]

/-- Witness for C6 at the constructor's state. -/
theorem octave_clamped_witness :
    Reachable (PianoUI.init "running" "Octave: 4") ∧
    ((1 ≤ (PianoUI.init "running" "Octave: 4").octave ∧
      (PianoUI.init "running" "Octave: 4").octave ≤ 7) ∧
     ((PianoUI.init "running" "Octave: 4").octave = 7 →
       (PianoUI.init "running" "Octave: 4").octaveUp = PianoUI.init "running" "Octave: 4") ∧
     ((PianoUI.init "running" "Octave: 4").octave = 1 →
       (PianoUI.init "running" "Octave: 4").octaveDown = PianoUI.init "running" "Octave: 4")) :=
  ⟨Reachable.init "running" "Octave: 4",
   octave_clamped _ (Reachable.init "running" "Octave: 4")⟩

/-- C7: an octave change (up or down, with its full key re-render)
leaves the Voice Engine untouched: the engine state — in particular the
active-voice map — is unchanged, so no sounding voice is released or
re-triggered; only the rendered keys and readout change. -/
theorem octave_change_engine_invariant (s : PianoUI) :
    (s.octaveUp).engine = s.engine ∧ (s.octaveDown).engine = s.engine := by
  constructor
  · unfold PianoUI.octaveUp
    split <;> rfl
  · unfold PianoUI.octaveDown
    split <;> rfl

/-- C5: a key-down event flagged as OS auto-repeat is suppressed: the
handler returns with the whole UI and engine state unchanged, so no
trigger call happens and no voice is created. -/
theorem keyrepeat_suppressed (s : PianoUI) (ev : KeyEvent)
    (h : ev.repeatFlag = true) : s.keydown ev = s := by
  unfold PianoUI.keydown
  rw [if_pos h]

/-- Witness for C5: a repeat-flagged `"a"` key-down at the constructor's
state. -/
theorem keyrepeat_suppressed_witness :
    ({ key := "a", repeatFlag := true } : KeyEvent).repeatFlag = true ∧
    (PianoUI.init "running" "Octave: 4").keydown { key := "a", repeatFlag := true } =
      PianoUI.init "running" "Octave: 4" :=
  ⟨rfl, keyrepeat_suppressed _ _ rfl⟩

/-! ### Decimal representation facts, for the key-string encoding -/

theorem digitChar_isDigit (m : Nat) (h : m < 10) : (Nat.digitChar m).isDigit = true := by
  interval_cases m <;> decide

theorem digitChar_val (m : Nat) (h : m < 10) :
    (Nat.digitChar m).toNat - Char.toNat '0' = m := by
  interval_cases m <;> decide

theorem toDigitsCore_append10 :
    ∀ (n g : Nat) (ds : List Char), n < g →
      Nat.toDigitsCore 10 g n ds = Nat.toDigitsCore 10 g n [] ++ ds := by
  intro n
  induction n using Nat.strong_induction_on with
  | _ n ih =>
    intro g ds hg
    cases g with
    | zero => exact absurd hg (Nat.not_lt_zero n)
    | succ g =>
      simp only [Nat.toDigitsCore]
      by_cases hd : n / 10 = 0
      · simp [hd]
      · have hn : 0 < n := by omega
        have hlt : n / 10 < n := Nat.div_lt_self hn (by norm_num)
        rw [if_neg hd, if_neg hd,
          ih (n / 10) hlt g (Nat.digitChar (n % 10) :: ds) (by omega),
          ih (n / 10) hlt g [Nat.digitChar (n % 10)] (by omega)]
        simp

theorem toDigitsCore_all_digits :
    ∀ (g n : Nat) (ds : List Char), (∀ c ∈ ds, c.isDigit = true) →
      ∀ c ∈ Nat.toDigitsCore 10 g n ds, c.isDigit = true := by
  intro g
  induction g with
  | zero =>
    intro n ds hds
    simpa [Nat.toDigitsCore] using hds
  | succ g ih =>
    intro n ds hds c hc
    simp only [Nat.toDigitsCore] at hc
    by_cases hd : n / 10 = 0
    · rw [if_pos hd] at hc
      rcases List.mem_cons.mp hc with rfl | hmem
      · exact digitChar_isDigit _ (Nat.mod_lt n (by norm_num))
      · exact hds c hmem
    · rw [if_neg hd] at hc
      refine ih (n / 10) (Nat.digitChar (n % 10) :: ds) ?_ c hc
      intro c' hc'
      rcases List.mem_cons.mp hc' with rfl | hmem
      · exact digitChar_isDigit _ (Nat.mod_lt n (by norm_num))
      · exact hds c' hmem

theorem toDigitsCore_ne_nil (n g : Nat) (hg : n < g) :
    Nat.toDigitsCore 10 g n [] ≠ [] := by
  cases g with
  | zero => exact absurd hg (Nat.not_lt_zero n)
  | succ g =>
    simp only [Nat.toDigitsCore]
    by_cases hd : n / 10 = 0
    · simp [hd]
    · have hn : 0 < n := by omega
      have hlt : n / 10 < n := Nat.div_lt_self hn (by norm_num)
      rw [if_neg hd, toDigitsCore_append10 (n / 10) g [Nat.digitChar (n % 10)] (by omega)]
      simp

/-- The decimal representation of a natural number starts with a digit
character. -/
theorem repr_head_digit (n : Nat) :
    ∃ c cs, (Nat.repr n).data = c :: cs ∧ c.isDigit = true := by
  have hne : Nat.toDigitsCore 10 (n + 1) n [] ≠ [] :=
    toDigitsCore_ne_nil n (n + 1) (Nat.lt_succ_self n)
  obtain ⟨c, cs, hcs⟩ := List.exists_cons_of_ne_nil hne
  refine ⟨c, cs, hcs, ?_⟩
  exact toDigitsCore_all_digits (n + 1) n [] (by simp) c
    (by rw [hcs]; exact List.mem_cons_self c cs)

/-- `digitsVal` recovers the number from its decimal digits. -/
theorem digitsVal_toDigitsCore :
    ∀ (n g : Nat), n < g → digitsVal (Nat.toDigitsCore 10 g n []) = n := by
  intro n
  induction n using Nat.strong_induction_on with
  | _ n ih =>
    intro g hg
    cases g with
    | zero => exact absurd hg (Nat.not_lt_zero n)
    | succ g =>
      simp only [Nat.toDigitsCore]
      by_cases hd : n / 10 = 0
      · rw [if_pos hd]
        have hval := digitChar_val (n % 10) (Nat.mod_lt n (by norm_num))
        simp only [digitsVal, List.foldl_cons, List.foldl_nil, Nat.mul_zero, Nat.zero_add]
        omega
      · have hn : 0 < n := by omega
        have hlt : n / 10 < n := Nat.div_lt_self hn (by norm_num)
        rw [if_neg hd, toDigitsCore_append10 (n / 10) g [Nat.digitChar (n % 10)] (by omega)]
        have hih := ih (n / 10) hlt g (by omega)
        have hval := digitChar_val (n % 10) (Nat.mod_lt n (by norm_num))
        simp only [digitsVal, List.foldl_append, List.foldl_cons, List.foldl_nil] at hih ⊢
        omega

/-- Decimal representation is injective on natural numbers. -/
theorem natRepr_injective {m n : Nat} (h : Nat.repr m = Nat.repr n) : m = n := by
  have hm := digitsVal_toDigitsCore m (m + 1) (Nat.lt_succ_self m)
  have hn := digitsVal_toDigitsCore n (n + 1) (Nat.lt_succ_self n)
  have hdata : Nat.toDigitsCore 10 (m + 1) m [] = Nat.toDigitsCore 10 (n + 1) n [] :=
    congrArg String.data h
  rw [← hm, ← hn, hdata]

/-- For a positive integer, `toString` is the decimal representation of
its natural value. -/
theorem intToString_pos {o : Int} (ho : 1 ≤ o) : toString o = Nat.repr o.toNat := by
  cases o with
  | ofNat m => rfl
  | negSucc m =>
    exfalso
    have := Int.negSucc_lt_zero m
    omega

/-- Decoding splits a note-and-octave key string back into its parts. -/
theorem decodeKey_keyString (note : String) (o : Int)
    (hn : note ∈ NOTES) (ho : 1 ≤ o) :
    decodeKey (keyString note o) = (note, toString o) := by
  obtain ⟨c, cs, hdata, hdig⟩ := repr_head_digit o.toNat
  have hts : (toString o).data = c :: cs := by
    rw [intToString_pos ho]
    exact hdata
  have hc : ¬ c = '#' := by
    intro hch
    subst hch
    exact absurd hdig (by decide)
  have hkey : (keyString note o).data = note.data ++ (c :: cs) := by
    show note.data ++ (toString o).data = note.data ++ (c :: cs)
    rw [hts]
  fin_cases hn <;>
  · rw [decodeKey, hkey]
    simp only [List.cons_append, List.nil_append, decodeKeyChars]
    first
      | (rw [if_neg hc]; exact Prod.ext rfl (by rw [← hts]))
      | (rw [if_pos trivial]; exact Prod.ext rfl (by rw [← hts]))

/-- On the supported identity domain, the key-string encoding is
injective. -/
theorem keyString_inj {n1 n2 : String} {o1 o2 : Int}
    (h1 : n1 ∈ NOTES) (h2 : n2 ∈ NOTES) (ho1 : 1 ≤ o1) (ho2 : 1 ≤ o2)
    (heq : keyString n1 o1 = keyString n2 o2) : n1 = n2 ∧ o1 = o2 := by
  have hd := congrArg decodeKey heq
  rw [decodeKey_keyString n1 o1 h1 ho1, decodeKey_keyString n2 o2 h2 ho2] at hd
  refine ⟨congrArg Prod.fst hd, ?_⟩
  have hts : toString o1 = toString o2 := congrArg Prod.snd hd
  rw [intToString_pos ho1, intToString_pos ho2] at hts
  have := natRepr_injective hts
  omega

/-- C9: the engine keys its active-voice map by the concatenation
`note ++ octave`; over the supported domain this encoding is injective,
so distinct identities get distinct keys and `playTone`/`stopTone` on
one identity never touch another identity's entry. -/
theorem key_encoding_injective (n1 n2 : String) (o1 o2 : Int) (s : AudioEngine) (f : ℝ)
    (h1 : n1 ∈ NOTES) (h2 : n2 ∈ NOTES) (ho1 : 1 ≤ o1) (ho2 : 1 ≤ o2)
    (hne : ¬(n1 = n2 ∧ o1 = o2)) :
    keyString n1 o1 ≠ keyString n2 o2 ∧
    lookupVoice (s.playTone (keyString n1 o1) f).oscillators (keyString n2 o2) =
      lookupVoice s.oscillators (keyString n2 o2) ∧
    lookupVoice (s.stopTone (keyString n1 o1)).oscillators (keyString n2 o2) =
      lookupVoice s.oscillators (keyString n2 o2) := by
  have hkne : keyString n1 o1 ≠ keyString n2 o2 :=
    fun h => hne (keyString_inj h1 h2 ho1 ho2 h)
  refine ⟨hkne, ?_, ?_⟩
  · unfold AudioEngine.playTone
    cases h : lookupVoice s.oscillators (keyString n1 o1) with
    | none => simp [h, lookupVoice_insertVoice_ne hkne]
    | some v =>
      simp only [h, Option.isSome_some, if_true, AudioEngine.stopTone]
      rw [lookupVoice_insertVoice_ne hkne, lookupVoice_eraseVoice_ne hkne]
  · unfold AudioEngine.stopTone
    cases h : lookupVoice s.oscillators (keyString n1 o1) with
    | none => rfl
    | some v =>
      simp only [h]
      exact lookupVoice_eraseVoice_ne hkne

/-- Witness for C9 at the distinct identities (C,4) and (C#,4) on a
concrete engine. -/
theorem key_encoding_injective_witness :
    ("C" ∈ NOTES ∧ "C#" ∈ NOTES ∧ (1 : Int) ≤ 4 ∧ ¬("C" = "C#" ∧ (4 : Int) = 4)) ∧
    (keyString "C" 4 ≠ keyString "C#" 4 ∧
     lookupVoice (sampleEngine.playTone (keyString "C" 4) 440).oscillators (keyString "C#" 4) =
       lookupVoice sampleEngine.oscillators (keyString "C#" 4) ∧
     lookupVoice (sampleEngine.stopTone (keyString "C" 4)).oscillators (keyString "C#" 4) =
       lookupVoice sampleEngine.oscillators (keyString "C#" 4)) :=
  ⟨⟨by decide, by decide, by decide, by decide⟩,
   key_encoding_injective "C" "C#" 4 4 sampleEngine 440
     (by decide) (by decide) (by decide) (by decide) (by decide)⟩

/-! ### Case-insensitive keyboard matching -/

/-- Two raw key values with the same lowercasing resolve identically. -/
theorem resolveKeyboard_congr (k1 k2 : String) (o : Int)
    (h : toLowerCase k1 = toLowerCase k2) :
    resolveKeyboard k1 o = resolveKeyboard k2 o := by
  unfold resolveKeyboard
  rw [h]

/-- For every mapped physical key, its uppercase variant resolves to
the same identity as the key itself. -/
theorem resolveKeyboard_toUpper :
    ∀ p ∈ KEY_MAP, ∀ o : Int, resolveKeyboard (toUpperVariant p.1) o = resolveKeyboard p.1 o := by
  intro p hp o
  fin_cases hp <;> exact resolveKeyboard_congr _ _ o (by decide)

/-- `keydown` depends on the raw key only through its resolution. -/
theorem keydown_key_congr (s : PianoUI) (k1 k2 : String) (rf : Bool)
    (h : ∀ o, resolveKeyboard k1 o = resolveKeyboard k2 o) :
    s.keydown { key := k1, repeatFlag := rf } = s.keydown { key := k2, repeatFlag := rf } := by
  unfold PianoUI.keydown
  dsimp only
  rw [h s.octave]

/-- `keyup` depends on the raw key only through its resolution. -/
theorem keyup_key_congr (s : PianoUI) (k1 k2 : String)
    (h : ∀ o, resolveKeyboard k1 o = resolveKeyboard k2 o) :
    s.keyup k1 = s.keyup k2 := by
  unfold PianoUI.keyup
  rw [h s.octave]

/-- C10: physical-keyboard input is matched case-insensitively: for
every mapped physical key, the uppercase variant of the key value
behaves exactly like the lowercase one, on key-down, on key-up, and in
the identity it resolves to. -/
theorem uppercase_key_same (p : String × String) (hp : p ∈ KEY_MAP)
    (s : PianoUI) (rf : Bool) :
    s.keydown { key := toUpperVariant p.1, repeatFlag := rf } =
      s.keydown { key := p.1, repeatFlag := rf } ∧
    s.keyup (toUpperVariant p.1) = s.keyup p.1 ∧
    resolveKeyboard (toUpperVariant p.1) s.octave = resolveKeyboard p.1 s.octave := by
  have h := resolveKeyboard_toUpper p hp
  exact ⟨keydown_key_congr s _ _ rf h, keyup_key_congr s _ _ h, h s.octave⟩

/-- Witness for C10 at the physical key `"a"` (uppercase `"A"`). -/
theorem uppercase_key_same_witness :
    ("a", "C") ∈ KEY_MAP ∧
    ((PianoUI.init "running" "Octave: 4").keydown
        { key := toUpperVariant "a", repeatFlag := false } =
       (PianoUI.init "running" "Octave: 4").keydown { key := "a", repeatFlag := false } ∧
     (PianoUI.init "running" "Octave: 4").keyup (toUpperVariant "a") =
       (PianoUI.init "running" "Octave: 4").keyup "a" ∧
     resolveKeyboard (toUpperVariant "a") (PianoUI.init "running" "Octave: 4").octave =
       resolveKeyboard "a" (PianoUI.init "running" "Octave: 4").octave) :=
  ⟨by decide, uppercase_key_same ("a", "C") (by decide) _ false⟩

/-- Witness for C8: a cached asset is served from the cache without the
network; an uncached asset goes to the network. -/
theorem fetch_cache_first_witness :
    sampleCache "index.html" = some "cached:index.html" ∧
    handleFetch sampleCache sampleNetwork "index.html" = ("cached:index.html", false) ∧
    sampleCache "missing.css" = none ∧
    handleFetch sampleCache sampleNetwork "missing.css" = ("network:missing.css", true) :=
  ⟨by decide, (fetch_cache_first sampleCache sampleNetwork "index.html").1 _ (by decide),
   by decide, (fetch_cache_first sampleCache sampleNetwork "missing.css").2 (by decide)⟩

end PWA
